import Mathlib

/-!
A shallow embedding of the evaluation core of the `slsh` shell, translated
from `src/builtins.rs`, `src/builtins_file.rs`, `src/environment.rs` and
`src/types.rs`, together with proofs about the behaviour of its builtins.

The repository ships two divergent drafts of `types.rs`; the design notes in
the specification name the richer draft (with `Vector`, `HashMap`, `Process`,
buffered `File`) as authoritative, and `builtins.rs` is written against that
richer draft (`Expression::Vector`, `Atom::StringBuf`, ...).  The richer
`types.rs` itself is not present under `src/`, so the value model below
follows `builtins.rs`'s usage, the older `src/types.rs` draft, and the
specification's data-model table where the drafts are silent.

Rust's `Rc<RefCell<Scope>>` cells are modelled by a heap: a list of scopes
indexed by position, with scope references being indices.  Mutating through
one alias is then visible through all aliases, as in the source.  OS-level
state (`sig_int`, `procs` child handles) is omitted: no claim inspects it.
-/

namespace Slsh

/-- `Atom` from `types.rs` (richer draft: `StringBuf` is used by
`builtins.rs`).  The `Float` payload (an IEEE double) and the
`Lambda`/`Macro` payloads (params, body, captured scope) are never inspected
by any of the builtins modelled here, so they are abstracted: `Float` keeps
no payload and the callables keep an opaque identifier. -/
inductive Atom where
  | Nil : Atom
  | True : Atom
  | Float : Atom
  | Int (i : Int) : Atom
  | Symbol (s : String) : Atom
  | String (s : String) : Atom
  | StringBuf (s : String) : Atom
  | Lambda (id : Nat) : Atom
  | Macro (id : Nat) : Atom
  deriving DecidableEq, Repr

/-- `ProcessState` from `types.rs`: a child process is `Running(pid)` or
`Over(pid, exit_status)`. -/
inductive ProcessState where
  | Running (pid : Nat) : ProcessState
  | Over (pid : Nat) (exit_status : Int) : ProcessState
  deriving DecidableEq, Repr

/-- `FileState` from `types.rs`.  The `Read`/`Write` payloads (buffered OS
readers/writers) are abstracted to an opaque handle identifier. -/
inductive FileState where
  | Stdin : FileState
  | Stdout : FileState
  | Stderr : FileState
  | Read (h : Nat) : FileState
  | Write (h : Nat) : FileState
  | Closed : FileState
  deriving DecidableEq, Repr

/-- `Expression` as used by `builtins.rs` (the richer `types.rs` draft):
`Vector` is the shared mutable vector (called `List` in the older draft),
`Pair` the shared mutable cons cell, `Func` an opaque native callable. -/
inductive Expression where
  | Atom (a : Atom) : Expression
  | Vector (l : List Expression) : Expression
  | Pair (car : Expression) (cdr : Expression) : Expression
  | Func (id : Nat) : Expression
  | Process (p : ProcessState) : Expression
  | File (f : FileState) : Expression

mutual

/-- Decidable structural equality for `Expression` (written by hand: the
nested `List` occurrence defeats the automatic derivation). -/
def Expression.decEq : (a b : Expression) → Decidable (a = b)
  | .Atom x, .Atom y =>
    if h : x = y then isTrue (by rw [h]) else isFalse (by simp [h])
  | .Vector l, .Vector m =>
    match Expression.decEqList l m with
    | isTrue h => isTrue (by rw [h])
    | isFalse h => isFalse (by simp [h])
  | .Pair a₁ b₁, .Pair a₂ b₂ =>
    match Expression.decEq a₁ a₂, Expression.decEq b₁ b₂ with
    | isTrue h₁, isTrue h₂ => isTrue (by rw [h₁, h₂])
    | isFalse h₁, _ => isFalse (by simp [h₁])
    | _, isFalse h₂ => isFalse (by simp [h₂])
  | .Func x, .Func y =>
    if h : x = y then isTrue (by rw [h]) else isFalse (by simp [h])
  | .Process x, .Process y =>
    if h : x = y then isTrue (by rw [h]) else isFalse (by simp [h])
  | .File x, .File y =>
    if h : x = y then isTrue (by rw [h]) else isFalse (by simp [h])
  | .Atom _, .Vector _ => isFalse (by simp)
  | .Atom _, .Pair _ _ => isFalse (by simp)
  | .Atom _, .Func _ => isFalse (by simp)
  | .Atom _, .Process _ => isFalse (by simp)
  | .Atom _, .File _ => isFalse (by simp)
  | .Vector _, .Atom _ => isFalse (by simp)
  | .Vector _, .Pair _ _ => isFalse (by simp)
  | .Vector _, .Func _ => isFalse (by simp)
  | .Vector _, .Process _ => isFalse (by simp)
  | .Vector _, .File _ => isFalse (by simp)
  | .Pair _ _, .Atom _ => isFalse (by simp)
  | .Pair _ _, .Vector _ => isFalse (by simp)
  | .Pair _ _, .Func _ => isFalse (by simp)
  | .Pair _ _, .Process _ => isFalse (by simp)
  | .Pair _ _, .File _ => isFalse (by simp)
  | .Func _, .Atom _ => isFalse (by simp)
  | .Func _, .Vector _ => isFalse (by simp)
  | .Func _, .Pair _ _ => isFalse (by simp)
  | .Func _, .Process _ => isFalse (by simp)
  | .Func _, .File _ => isFalse (by simp)
  | .Process _, .Atom _ => isFalse (by simp)
  | .Process _, .Vector _ => isFalse (by simp)
  | .Process _, .Pair _ _ => isFalse (by simp)
  | .Process _, .Func _ => isFalse (by simp)
  | .Process _, .File _ => isFalse (by simp)
  | .File _, .Atom _ => isFalse (by simp)
  | .File _, .Vector _ => isFalse (by simp)
  | .File _, .Pair _ _ => isFalse (by simp)
  | .File _, .Func _ => isFalse (by simp)
  | .File _, .Process _ => isFalse (by simp)

/-- Companion to `Expression.decEq` for lists of expressions. -/
def Expression.decEqList : (l m : List Expression) → Decidable (l = m)
  | [], [] => isTrue rfl
  | [], _ :: _ => isFalse (by simp)
  | _ :: _, [] => isFalse (by simp)
  | a :: l, b :: m =>
    match Expression.decEq a b, Expression.decEqList l m with
    | isTrue h₁, isTrue h₂ => isTrue (by rw [h₁, h₂])
    | isFalse h₁, _ => isFalse (by simp [h₁])
    | _, isFalse h₂ => isFalse (by simp [h₂])

end

instance : DecidableEq Expression := Expression.decEq

/-- `Expression::with_list` from `types.rs`: wrap a vector of expressions as
a `Vector` value. -/
def Expression.with_list (l : List Expression) : Expression :=
  Expression.Vector l

/-- Modelled from the spec: iteration over a `Pair` chain (`Expression::iter`
is defined in the richer `types.rs` draft, absent from `src/`).  The
specification's glossary says chains of pairs form a linked list ending in
`Nil`; iteration yields the successive `car`s. -/
def pairToList : Expression → List Expression
  | .Pair a b => a :: pairToList b
  | _ => []

/-- Modelled from the spec: `Expression::cons_from_vec` (defined in the
richer `types.rs` draft, absent from `src/`) builds a pair chain ending in
`Nil` from a vector of elements; the empty vector gives `Nil`. -/
def cons_from_vec : List Expression → Expression
  | [] => .Atom .Nil
  | e :: rest => .Pair e (cons_from_vec rest)

/-- `IOState` from `environment.rs`. -/
inductive IOState where
  | Pipe : IOState
  | Inherit : IOState
  | Null : IOState
  deriving DecidableEq, Repr

/-- `FormType` from `environment.rs`. -/
inductive FormType where
  | Any : FormType
  | FormOnly : FormType
  | ExternalOnly : FormType
  deriving DecidableEq, Repr

/-- `EnvState` from `environment.rs`.  The `gensym_count` field is a `u32`
in the source; it is modelled as a `Nat` kept below `2 ^ 32` by the
operations that touch it (`builtin_gensym` increments modulo `2 ^ 32`,
mirroring release-mode wrapping arithmetic). -/
structure EnvState where
  recur_num_args : Option Nat
  gensym_count : Nat
  stdout_status : Option IOState
  stderr_status : Option IOState
  eval_level : Nat
  is_spawn : Bool
  pipe_pgid : Option Nat
  deriving Repr

/-- `EnvState::default` from `environment.rs`. -/
def EnvState.default : EnvState :=
  { recur_num_args := none
    gensym_count := 0
    stdout_status := none
    stderr_status := none
    eval_level := 0
    is_spawn := false
    pipe_pgid := none }

/-- `JobStatus` from `environment.rs`. -/
inductive JobStatus where
  | Running : JobStatus
  | Stopped : JobStatus
  deriving DecidableEq, Repr

/-- `Job` from `environment.rs`. -/
structure Job where
  pids : List Nat
  names : List String
  status : JobStatus
  deriving Repr

/-- `Scope` from `environment.rs`: a map from name to value, an optional
outer scope (an `Rc<RefCell<Scope>>` in the source, modelled as a heap
index), and an optional namespace name.  The data map is modelled as a
function to `Option Expression`. -/
structure Scope where
  data : String → Option Expression
  outer : Option Nat
  name : Option String

/-- `Environment` from `environment.rs`.  `Rc<RefCell<Scope>>` references
are heap indices into `heap`; `root_scope` and the members of
`current_scope` and `namespaces` are such indices.  `namespaces` (a
`HashMap` in the source) is an association list; insertion prepends (the
source only inserts absent keys).  `sig_int` (an OS atomic) and `procs`
(live child handles) are omitted: no modelled builtin inspects them. -/
structure Environment where
  state : EnvState
  stopped_procs : List Nat
  jobs : List Job
  in_pipe : Bool
  run_background : Bool
  is_tty : Bool
  do_job_control : Bool
  loose_symbols : Bool
  str_ignore_expand : Bool
  data_in : Option Expression
  form_type : FormType
  save_exit_status : Bool
  stack_on_error : Bool
  error_expression : Option Expression
  exit_code : Option Int
  dynamic_scope : String → Option Expression
  root_scope : Nat
  current_scope : List Nat
  namespaces : List (String × Nat)
  heap : List Scope

/-- `Scope::default` from `environment.rs`: the root scope.  The
`add_*_builtins` registrations populate the data map with the builtin
callables; their exact contents are irrelevant to every claim proved here,
so they are abstracted as the `builtins` parameter which the explicit
inserts (`*stdin*`, `*stdout*`, `*stderr*`, `*ns*`) then overlay. -/
def Scope.default (builtins : String → Option Expression) : Scope :=
  { data := fun k =>
      if k = "*stdin*" then some (.File .Stdin)
      else if k = "*stdout*" then some (.File .Stdout)
      else if k = "*stderr*" then some (.File .Stderr)
      else if k = "*ns*" then some (.Atom (.String "root"))
      else builtins k
    outer := none
    name := some "root" }

/-- `build_default_environment` from `environment.rs`: root scope at heap
index 0, pushed as the only element of the scope stack and registered as
namespace `"root"`. -/
def build_default_environment (builtins : String → Option Expression) :
    Environment :=
  { state := EnvState.default
    stopped_procs := []
    jobs := []
    in_pipe := false
    run_background := false
    is_tty := true
    do_job_control := true
    loose_symbols := false
    str_ignore_expand := false
    data_in := none
    form_type := .Any
    save_exit_status := true
    stack_on_error := false
    error_expression := none
    exit_code := none
    dynamic_scope := fun _ => none
    root_scope := 0
    current_scope := [0]
    namespaces := [("root", 0)]
    heap := [Scope.default builtins] }

/-- The type of the evaluator.  `eval` lives in `eval.rs`, which is not part
of the sources under analysis; the builtins below receive it as an opaque
parameter: a function taking the environment and an expression and returning
the mutated environment together with a value or an error message (Rust's
`io::Result<Expression>`, with `io::Error` displayed as its message). -/
def EvalFn : Type :=
  Environment → Expression → Environment × Except String Expression

/-- The evaluation loop shared verbatim by `builtin_command`,
`builtin_form`, `builtin_run_bg` and `builtin_loose_symbols` in
`builtins.rs`: evaluate the argument forms left to right, stopping at the
first error; the result is the last value (`Nil` for no arguments) or that
first error. -/
def evalSeq (evalF : EvalFn) : Environment → List Expression →
    Environment × Except String Expression
  | env, [] => (env, .ok (.Atom .Nil))
  | env, a :: rest =>
    match evalF env a with
    | (env', .error e) => (env', .error e)
    | (env', .ok v) =>
      match rest with
      | [] => (env', .ok v)
      | _ => evalSeq evalF env' rest

/-- `builtin_command` from `builtins.rs`: saves `form_type`, sets it to
`ExternalOnly`, evaluates the body forms, and restores the saved value on
both the success and the error exit path. -/
def builtin_command (evalF : EvalFn) (env : Environment)
    (args : List Expression) : Environment × Except String Expression :=
  let old_form := env.form_type
  match evalSeq evalF { env with form_type := .ExternalOnly } args with
  | (env', r) => ({ env' with form_type := old_form }, r)

/-- `builtin_form` from `builtins.rs`: like `builtin_command` but with
`FormOnly`. -/
def builtin_form (evalF : EvalFn) (env : Environment)
    (args : List Expression) : Environment × Except String Expression :=
  let old_form := env.form_type
  match evalSeq evalF { env with form_type := .FormOnly } args with
  | (env', r) => ({ env' with form_type := old_form }, r)

/-- `builtin_run_bg` from `builtins.rs`: sets `run_background` to `true`
(without saving the old value), evaluates the body forms, and sets
`run_background` to `false` on both exit paths. -/
def builtin_run_bg (evalF : EvalFn) (env : Environment)
    (args : List Expression) : Environment × Except String Expression :=
  match evalSeq evalF { env with run_background := true } args with
  | (env', r) => ({ env' with run_background := false }, r)

/-- `builtin_loose_symbols` from `builtins.rs`: saves `loose_symbols`, sets
it to `true`, evaluates the body forms, and restores the saved value on both
exit paths. -/
def builtin_loose_symbols (evalF : EvalFn) (env : Environment)
    (args : List Expression) : Environment × Except String Expression :=
  let old_loose_syms := env.loose_symbols
  match evalSeq evalF { env with loose_symbols := true } args with
  | (env', r) => ({ env' with loose_symbols := old_loose_syms }, r)

/-- `builtin_get_error` from `builtins.rs`: evaluate each form, keeping the
last value (starting from `Nil`); at the first error, return a `Vector`
holding the symbol `:error` and the error's message instead of propagating
it. -/
def builtin_get_error (evalF : EvalFn) : Environment → List Expression →
    Environment × Except String Expression
  | env, [] => (env, .ok (.Atom .Nil))
  | env, a :: rest =>
    match evalF env a with
    | (env', .error err) =>
      (env', .ok (Expression.with_list
        [.Atom (.Symbol ":error"), .Atom (.String err)]))
    | (env', .ok v) =>
      match rest with
      | [] => (env', .ok v)
      | _ => builtin_get_error evalF env' rest

/-- The loop of `builtin_and` from `builtins.rs`: `last_exp` starts as
`True`; each argument is evaluated, `Nil` short-circuits, errors propagate,
and the final value of `last_exp` is returned. -/
def andLoop (evalF : EvalFn) : Environment → Expression → List Expression →
    Environment × Except String Expression
  | env, last_exp, [] => (env, .ok last_exp)
  | env, _, a :: rest =>
    match evalF env a with
    | (env', .error e) => (env', .error e)
    | (env', .ok (.Atom .Nil)) => (env', .ok (.Atom .Nil))
    | (env', .ok v) => andLoop evalF env' v rest

/-- `builtin_and` from `builtins.rs`. -/
def builtin_and (evalF : EvalFn) (env : Environment)
    (args : List Expression) : Environment × Except String Expression :=
  andLoop evalF env (.Atom .True) args

/-- `builtin_or` from `builtins.rs`: evaluate arguments left to right,
skipping `Nil` results; the first non-`Nil` value is returned, errors
propagate, and `Nil` is returned when the arguments run out. -/
def builtin_or (evalF : EvalFn) : Environment → List Expression →
    Environment × Except String Expression
  | env, [] => (env, .ok (.Atom .Nil))
  | env, a :: rest =>
    match evalF env a with
    | (env', .error e) => (env', .error e)
    | (env', .ok (.Atom .Nil)) => builtin_or evalF env' rest
    | (env', .ok v) => (env', .ok v)

/-- `proc_set_vars2` from `builtins.rs`: the evaluated key must be a symbol
(the source's re-wrapping of a `String` value is the identity and is elided
here). -/
def proc_set_vars2 (key val : Expression) :
    Except String (String × Expression) :=
  match key with
  | .Atom (.Symbol s) => .ok (s, val)
  | _ => .error "first form (binding key) must evaluate to a symbol"

/-- `proc_set_vars` from `builtins.rs`: takes the first two argument forms,
checks there is no third when `only_two` is set (before evaluating
anything), evaluates key and value left to right, and runs
`proc_set_vars2`. -/
def proc_set_vars (evalF : EvalFn) (env : Environment) (only_two : Bool)
    (args : List Expression) :
    Environment × Except String (String × Expression) :=
  match args with
  | key :: val :: rest =>
    if !only_two || rest.isEmpty then
      match evalF env key with
      | (env₁, .error e) => (env₁, .error e)
      | (env₁, .ok keyv) =>
        match evalF env₁ val with
        | (env₂, .error e) => (env₂, .error e)
        | (env₂, .ok valv) =>
          match proc_set_vars2 keyv valv with
          | .ok kv => (env₂, .ok kv)
          | .error e => (env₂, .error e)
    else (env, .error "def/set requires a key and value")
  | _ => (env, .error "def/set requires a key and value")

/-- `builtin_dyn` from `builtins.rs`: evaluate key and value, remove any
existing dynamic binding of the key (recording it), install the new dynamic
binding, evaluate the body form, and restore the recorded binding (or its
absence) whether the body returned a value or an error.  When no body form
is given the removed old binding is *not* restored (as in the source). -/
def builtin_dyn (evalF : EvalFn) (env : Environment)
    (args : List Expression) : Environment × Except String Expression :=
  match proc_set_vars evalF env false args with
  | (env₂, .error e) => (env₂, .error e)
  | (env₂, .ok (key, val)) =>
    let old_val := env₂.dynamic_scope key
    let env₃ := { env₂ with
      dynamic_scope := fun k =>
        if k = key then none else env₂.dynamic_scope k }
    match args.drop 2 with
    | exp :: _ =>
      let env₄ := { env₃ with
        dynamic_scope := fun k =>
          if k = key then some val else env₃.dynamic_scope k }
      match evalF env₄ exp with
      | (env₅, res) =>
        ({ env₅ with
            dynamic_scope := fun k =>
              if k = key then old_val else env₅.dynamic_scope k }, res)
    | [] =>
      (env₃,
       .error "dyn requires three expressions (symbol, value, form to evaluate)")

/-- Scan of a character list for two adjacent colons. -/
def contains_colons_list : List Char → Bool
  | ':' :: ':' :: _ => true
  | _ :: rest => contains_colons_list rest
  | [] => false

/-- Rust's `key.contains("::")`. -/
def contains_colons (s : String) : Bool :=
  contains_colons_list s.data

/-- The scope-chain walk inside `get_symbols_scope` from `environment.rs`,
following `outer` references from the innermost current scope.  The walk is
fuelled: in every reachable state the `outer` chain is acyclic and no longer
than the heap, so `heap.length + 1` units of fuel never run out (on a cyclic
chain the source would not terminate at all). -/
def scopeWalk (heap : List Scope) (key : String) :
    Nat → Option Nat → Option Nat
  | _, none => none
  | 0, some _ => none
  | fuel + 1, some id =>
    match heap[id]? with
    | none => none
    | some sc =>
      if (sc.data key).isSome then some id
      else scopeWalk heap key fuel sc.outer

/-- `get_symbols_scope` from `environment.rs`.  As the source comment says:
it deliberately never returns a scope for a key containing `::`, so that
`set` cannot write into other namespaces. -/
def get_symbols_scope (env : Environment) (key : String) : Option Nat :=
  if contains_colons key then none
  else scopeWalk env.heap key (env.heap.length + 1) env.current_scope.getLast?

/-- `builtin_set` from `builtins.rs`: after `proc_set_vars`, write the value
over an existing dynamic binding if there is one, else over the binding in
the scope found by `get_symbols_scope`, else error. -/
def builtin_set (evalF : EvalFn) (env : Environment)
    (args : List Expression) : Environment × Except String Expression :=
  match proc_set_vars evalF env true args with
  | (env₂, .error e) => (env₂, .error e)
  | (env₂, .ok (key, val)) =>
    if (env₂.dynamic_scope key).isSome then
      ({ env₂ with
          dynamic_scope := fun k =>
            if k = key then some val else env₂.dynamic_scope k }, .ok val)
    else
      match get_symbols_scope env₂ key with
      | some id =>
        match env₂.heap[id]? with
        | some sc =>
          ({ env₂ with
              heap := env₂.heap.set id
                { sc with data := fun k =>
                    if k = key then some val else sc.data k } }, .ok val)
        | none => (env₂, .error "PANIC: invalid scope reference")
      | none =>
        (env₂, .error "set's first form must evaluate to an existing symbol")

/-- Decimal digits of a natural number, least significant first (always a
nonempty list when the fuel exceeds the number).  The structural fuel keeps
the definition kernel-reducible. -/
def natDigitsF : Nat → Nat → List Nat
  | 0, _ => []
  | fuel + 1, n =>
    if n < 10 then [n]
    else (n % 10) :: natDigitsF fuel (n / 10)

/-- Decimal rendering of a natural number; this models Rust's
`format!("{}", n)` on an unsigned integer. -/
def natRepr (n : Nat) : String :=
  ⟨((natDigitsF (n + 1) n).reverse).map Nat.digitChar⟩

/-- Decoding of a least-significant-first decimal digit list, the inverse
of `natDigitsF`. -/
def undigits : List Nat → Nat
  | [] => 0
  | d :: ds => d + 10 * undigits ds

/-- `2 ^ 32`, the modulus of Rust's `u32` wrapping arithmetic. -/
def u32_size : Nat := 2 ^ 32

/-- `builtin_gensym` from `builtins.rs`: with no arguments, bump the
environment's `gensym_count` (a `u32`, so the bump wraps at `2 ^ 32`) and
return the symbol `gs::<new count>`; with arguments, error (the source's
message misspells "no" as "to"). -/
def builtin_gensym (env : Environment) (args : List Expression) :
    Environment × Except String Expression :=
  match args with
  | [] =>
    let new_count := (env.state.gensym_count + 1) % u32_size
    ({ env with state := { env.state with gensym_count := new_count } },
     .ok (.Atom (.Symbol ("gs::" ++ natRepr new_count))))
  | _ => (env, .error "gensym takes to arguments")

/-- Iterated `gensym`: the environment after `n` zero-argument `gensym`
calls. -/
def gensymIter (env : Environment) : Nat → Environment
  | 0 => env
  | n + 1 => (builtin_gensym (gensymIter env n) []).1

/-- Key membership in the namespace registry (Rust's
`HashMap::contains_key`). -/
def ns_contains (l : List (String × Nat)) (k : String) : Bool :=
  l.any (fun p => p.1 == k)

/-- `get_namespace` from `environment.rs`: look a namespace scope up by
name. -/
def get_namespace (env : Environment) (nm : String) : Option Nat :=
  (env.namespaces.find? (fun p => p.1 == nm)).map (fun p => p.2)

/-- `build_new_namespace` from `environment.rs`: error if the name is
taken, else allocate a scope whose data holds `*ns*`, whose `outer` is the
root scope and whose `name` is the registry key, and register it.  The
returned index models the returned `Rc<RefCell<Scope>>`. -/
def build_new_namespace (env : Environment) (nm : String) :
    Except String (Environment × Nat) :=
  if ns_contains env.namespaces nm then
    .error s!"Namespace {nm} already exists!"
  else
    let scope : Scope :=
      { data := fun k =>
          if k = "*ns*" then some (.Atom (.String nm)) else none
        outer := some env.root_scope
        name := some nm }
    let id := env.heap.length
    .ok ({ env with
            heap := env.heap ++ [scope]
            namespaces := (nm, id) :: env.namespaces }, id)

/-- `environment.current_scope.last().unwrap().borrow()`: the innermost
scope on the stack.  The source `unwrap`s; an empty stack or dangling index
(impossible in reachable states) gives `none` here. -/
def current_scope_ref (env : Environment) : Option Scope :=
  env.current_scope.getLast?.bind (fun i => env.heap[i]?)

/-- The tail of `builtin_ns_create` after the key has been evaluated to a
string: build the namespace, insert `*ns*` into the fresh scope once more
(as the source does), and push it on the scope stack. -/
def ns_create_core (env₁ : Environment) (key : String) :
    Environment × Except String Expression :=
  match build_new_namespace env₁ key with
  | .error msg => (env₁, .error msg)
  | .ok (env₂, id) =>
    let env₃ :=
      match env₂.heap[id]? with
      | some sc =>
        { env₂ with
            heap := env₂.heap.set id
              { sc with data := fun k =>
                  if k = "*ns*" then some (.Atom (.String key))
                  else sc.data k } }
      | none => env₂
    ({ env₃ with current_scope := env₃.current_scope ++ [id] },
     .ok (.Atom .Nil))

/-- `builtin_ns_create` from `builtins.rs`: requires the innermost scope to
be a namespace scope, takes exactly one argument evaluating to a symbol or
string, and creates and enters the new namespace. -/
def builtin_ns_create (evalF : EvalFn) (env : Environment)
    (args : List Expression) : Environment × Except String Expression :=
  match current_scope_ref env with
  | none => (env, .error "PANIC: scope stack corrupt")
  | some sc =>
    if sc.name = none then
      (env,
       .error "ns-create can only create a namespace when not in a lexical scope")
    else
      match args with
      | [keyExp] =>
        match evalF env keyExp with
        | (env₁, .error e) => (env₁, .error e)
        | (env₁, .ok (.Atom (.Symbol sym))) => ns_create_core env₁ sym
        | (env₁, .ok (.Atom (.String s))) => ns_create_core env₁ s
        | (env₁, .ok _) =>
          (env₁, .error "ns-create: namespace must be a symbol or string")
      | _ =>
        (env, .error "ns-create takes one arg, the name of the new namespace")

/-- The tail of `builtin_ns_enter` after the key has been evaluated to a
string: look the namespace up and push it on the scope stack. -/
def ns_enter_core (env₁ : Environment) (key : String) :
    Environment × Except String Expression :=
  match get_namespace env₁ key with
  | some id =>
    ({ env₁ with current_scope := env₁.current_scope ++ [id] },
     .ok (.Atom .Nil))
  | none => (env₁, .error s!"Error, namespace {key} does not exist!")

/-- `builtin_ns_enter` from `builtins.rs`: requires the innermost scope to
be a namespace scope, takes exactly one argument evaluating to a symbol or
string, and pushes the named namespace on the scope stack. -/
def builtin_ns_enter (evalF : EvalFn) (env : Environment)
    (args : List Expression) : Environment × Except String Expression :=
  match current_scope_ref env with
  | none => (env, .error "PANIC: scope stack corrupt")
  | some sc =>
    if sc.name = none then
      (env,
       .error "ns-enter can only enter a namespace when not in a lexical scope")
    else
      match args with
      | [keyExp] =>
        match evalF env keyExp with
        | (env₁, .error e) => (env₁, .error e)
        | (env₁, .ok (.Atom (.Symbol sym))) => ns_enter_core env₁ sym
        | (env₁, .ok (.Atom (.String s))) => ns_enter_core env₁ s
        | (env₁, .ok _) =>
          (env₁, .error "ns-enter: namespace must be a symbol or string")
      | _ =>
        (env,
         .error "ns-enter takes one arg, the name of the namespace to enter")

/-- The namespace-registry invariant, as it actually holds on the code:
the key `"root"` is registered; every registry entry `(k, i)` names a live
scope whose `name` field is `some k`; the `"root"` entry is the root scope
itself, whose `outer` is `none`, and every other entry's `outer` is the
root scope. -/
def ns_registry_inv (env : Environment) : Prop :=
  (∃ i, ("root", i) ∈ env.namespaces) ∧
  ∀ k i, (k, i) ∈ env.namespaces →
    ∃ s, env.heap[i]? = some s ∧ s.name = some k ∧
      (k = "root" → i = env.root_scope ∧ s.outer = none) ∧
      (k ≠ "root" → s.outer = some env.root_scope)

/-- The type of the abstracted `Expression::writef`: writing the bytes of a
value (the pipeline's `data_in`) to the current writer is an OS side effect
returning unit or an I/O error. -/
def WritefFn : Type :=
  Environment → Expression → Except String Unit

/-- `pipe_write_file` from `builtins_file.rs`: decide from `data_in`
whether there is anything to write, reject invalid states, and otherwise
write via `writef`. -/
def pipe_write_file (writefF : WritefFn) (env : Environment) :
    Except String Unit :=
  match env.data_in with
  | none => .ok ()
  | some e =>
    match e with
    | .Atom .Nil => .ok ()
    | .Atom _ => writefF env e
    | .Process (.Running _) => writefF env e
    | .File .Stdin => writefF env e
    | .File (.Read _) => writefF env e
    | _ => .error "Invalid expression state before file."

/-- The per-stage preamble of the `builtin_pipe` loop: before the last
stage, the caller's `stdout_status` and `in_pipe` are restored; then the
previous stage's output becomes `data_in`. -/
def pipePrep (old_out_status : Option IOState) (env : Environment)
    (out : Expression) (rest : List Expression) : Environment :=
  let env := if rest.isEmpty then
      { env with
          in_pipe := false
          state := { env.state with stdout_status := old_out_status } }
    else env
  { env with data_in := some out }

/-- The stage loop of `builtin_pipe` from `builtins_file.rs`.  `p` is the
current stage (1-based index `i`), `rest` the remaining stages, `out` the
previous stage's output.  Each stage sees the previous output as `data_in`
(`pipePrep`); a stage yielding a process records the pipeline's
process-group leader; file stages are written to; a read file anywhere but
stage 1 is an error; errors break the loop. -/
def pipeLoop (evalF : EvalFn) (writefF : WritefFn)
    (old_out_status : Option IOState) :
    Environment → Expression → Nat → Expression → List Expression →
    Environment × Expression × Option String
  | env, out, i, p, rest =>
    match evalF (pipePrep old_out_status env out rest) p with
    | (env₁, .error e) => (env₁, out, some e)
    | (env₁, .ok v) =>
      let env₂ :=
        match v with
        | .Process (.Running pid) =>
          if env₁.state.pipe_pgid = none then
            { env₁ with state := { env₁.state with pipe_pgid := some pid } }
          else env₁
        | .Process (.Over pid _) =>
          if env₁.state.pipe_pgid = none then
            { env₁ with state := { env₁.state with pipe_pgid := some pid } }
          else env₁
        | _ => env₁
      let step : Option String :=
        match v with
        | .File .Stdout =>
          match pipe_write_file writefF env₂ with
          | .ok _ => none
          | .error e => some e
        | .File .Stderr =>
          match pipe_write_file writefF env₂ with
          | .ok _ => none
          | .error e => some e
        | .File (.Write _) =>
          match pipe_write_file writefF env₂ with
          | .ok _ => none
          | .error e => some e
        | .File (.Read _) =>
          if i > 1 then
            some "Not a valid place for a read file (must be at start of pipe)."
          else none
        | _ => none
      match step with
      | some e => (env₂, out, some e)
      | none =>
        match rest with
        | [] => (env₂, v, none)
        | q :: qs => pipeLoop evalF writefF old_out_status env₂ v (i + 1) q qs

/-- `builtin_pipe` from `builtins_file.rs`: reject nested pipelines, set
`in_pipe` and `stdout_status := Pipe`, run the stage loop, then clear
`data_in`, `in_pipe` and `pipe_pgid`, restore `stdout_status`, and return
the recorded error or the last stage's output. -/
def builtin_pipe (evalF : EvalFn) (writefF : WritefFn) (env : Environment)
    (args : List Expression) : Environment × Except String Expression :=
  if env.in_pipe then (env, .error "pipe within pipe, not valid")
  else
    let old_out_status := env.state.stdout_status
    let env₁ := { env with
      in_pipe := true
      state := { env.state with stdout_status := some .Pipe } }
    let r :=
      match args with
      | [] => (env₁, Expression.Atom .Nil, (none : Option String))
      | p :: rest => pipeLoop evalF writefF old_out_status env₁ (.Atom .Nil) 1 p rest
    match r with
    | (env₂, out, err) =>
      let env₃ := { env₂ with
        data_in := none
        in_pipe := false
        state := { env₂.state with
          pipe_pgid := none
          stdout_status := old_out_status } }
      match err with
      | some e => (env₃, .error e)
      | none => (env₃, .ok out)

/-- Every expression has positive size (used for the termination of the
quasiquote loop). -/
theorem Expression.sizeOf_pos (x : Expression) : 0 < sizeOf x := by
  cases x <;> simp

/-- The elements of a pair chain are its subterms: the chain's element list
is no larger than the chain itself. -/
theorem pairToList_sizeOf_le : (x : Expression) →
    sizeOf (pairToList x) ≤ sizeOf x
  | .Pair a b => by
    have ih := pairToList_sizeOf_le b
    simp only [pairToList, List.cons.sizeOf_spec, Expression.Pair.sizeOf_spec]
    omega
  | .Atom a => by
    have := Expression.sizeOf_pos (.Atom a); simp only [pairToList]; simp
  | .Vector l => by
    have := Expression.sizeOf_pos (.Vector l); simp only [pairToList]; simp
  | .Func i => by
    have := Expression.sizeOf_pos (.Func i); simp only [pairToList]; simp
  | .Process p => by
    have := Expression.sizeOf_pos (.Process p); simp only [pairToList]; simp
  | .File f => by
    have := Expression.sizeOf_pos (.File f); simp only [pairToList]; simp

/-- Is the expression the unquote marker: the symbol `,`. -/
def isCommaSym : Expression → Bool
  | .Atom (.Symbol s) => s == ","
  | _ => false

/-- Is the expression the splice marker: the symbol `,@`. -/
def isAmpSym : Expression → Bool
  | .Atom (.Symbol s) => s == ",@"
  | _ => false

/-- The flag-driven body of one `replace_commas` iteration from
`builtins.rs`, for an element that is not itself a `,` or `,@` marker:
under `comma_next` the element is evaluated and its value substituted;
under `amp_next` it is evaluated and the result, which must be a `Vector`
or a `Pair` chain, is spliced element-wise; otherwise the element passes
through.  Returns the pieces pushed to the output and the new flags. -/
def rcFlagStep (evalF : EvalFn) (env : Environment) (exp : Expression)
    (comma_next amp_next : Bool) :
    Environment × Except String (List Expression × Bool × Bool) :=
  if comma_next then
    match evalF env exp with
    | (env₁, .error e) => (env₁, .error e)
    | (env₁, .ok v) => (env₁, .ok ([v], false, amp_next))
  else if amp_next then
    match evalF env exp with
    | (env₁, .error e) => (env₁, .error e)
    | (env₁, .ok (.Vector l)) => (env₁, .ok (l, comma_next, false))
    | (env₁, .ok (.Pair a b)) =>
      (env₁, .ok (pairToList (.Pair a b), comma_next, false))
    | (env₁, .ok _) => (env₁, .error ",@ must be applied to a list")
  else (env, .ok ([exp], comma_next, amp_next))

/-- The loop of `replace_commas` from `builtins.rs` over the element list.
Each element that is itself a `Vector` or a `Pair` chain is first rewritten
by a recursive `replace_commas` with the *same* `is_vector` flag (the
wrapping of the recursive result is inlined here); then the `,`/`,@` flag
logic runs on the rewritten element. -/
def rcLoop (evalF : EvalFn) :
    Environment → Bool → Bool → Bool → List Expression →
    Environment × Except String (List Expression)
  | env, _, _, _, [] => (env, .ok [])
  | env, is_vector, comma_next, amp_next, e :: rest =>
    let t : Environment × Except String Expression :=
      match e with
      | .Vector l =>
        match rcLoop evalF env is_vector false false l with
        | (env₁, .ok out) =>
          (env₁, .ok (if is_vector then Expression.with_list out
                      else cons_from_vec out))
        | (env₁, .error err) => (env₁, .error err)
      | .Pair a b =>
        match rcLoop evalF env is_vector false false
            (pairToList (.Pair a b)) with
        | (env₁, .ok out) =>
          (env₁, .ok (if is_vector then Expression.with_list out
                      else cons_from_vec out))
        | (env₁, .error err) => (env₁, .error err)
      | _ => (env, .ok e)
    match t with
    | (env₁, .error err) => (env₁, .error err)
    | (env₁, .ok exp) =>
      if isCommaSym exp then rcLoop evalF env₁ is_vector true amp_next rest
      else if isAmpSym exp then
        rcLoop evalF env₁ is_vector comma_next true rest
      else
        match rcFlagStep evalF env₁ exp comma_next amp_next with
        | (env₂, .error err) => (env₂, .error err)
        | (env₂, .ok (pieces, c, a)) =>
          match rcLoop evalF env₂ is_vector c a rest with
          | (env₃, .ok outRest) => (env₃, .ok (pieces ++ outRest))
          | (env₃, .error err) => (env₃, .error err)
termination_by _ _ _ _ l => sizeOf l
decreasing_by
  all_goals simp only [List.cons.sizeOf_spec, Expression.Vector.sizeOf_spec]
  · omega
  · have := pairToList_sizeOf_le (.Pair a b)
    simp only [Expression.Pair.sizeOf_spec] at this ⊢
    omega
  · have := Expression.sizeOf_pos e; omega
  · have := Expression.sizeOf_pos e; omega
  · have := Expression.sizeOf_pos e; omega

/-- `replace_commas` from `builtins.rs`: run the loop with both flags
clear, then wrap the output as a `Vector` (`is_vector`) or as a pair chain
(`cons_from_vec`). -/
def replace_commas (evalF : EvalFn) (env : Environment)
    (l : List Expression) (is_vector : Bool) :
    Environment × Except String Expression :=
  match rcLoop evalF env is_vector false false l with
  | (env₁, .ok output) =>
    (env₁, .ok (if is_vector then Expression.with_list output
                else cons_from_vec output))
  | (env₁, .error e) => (env₁, .error e)

/-- `builtin_bquote` from `builtins.rs`: a leading `,` symbol evaluates the
following form; a `Vector` or a `Pair` chain goes through `replace_commas`
(with `is_vector` respectively `true` and `false`); anything else is
returned unchanged; any argument beyond the single form is an error (after
the form's work, whose environment effects persist). -/
def builtin_bquote (evalF : EvalFn) (env : Environment)
    (args : List Expression) : Environment × Except String Expression :=
  match args with
  | [] => (env, .error "bquote takes one form")
  | arg :: rest =>
    let r : Environment × Except String Expression :=
      match arg with
      | .Atom (.Symbol s) =>
        if s = "," then
          match rest with
          | [] => (env, .ok (.Atom .Nil))
          | exp :: _ => evalF env exp
        else (env, .ok arg)
      | .Vector l => replace_commas evalF env l true
      | .Pair a b => replace_commas evalF env (pairToList (.Pair a b)) false
      | _ => (env, .ok arg)
    let remaining : List Expression :=
      match arg with
      | .Atom (.Symbol s) => if s = "," then rest.drop 1 else rest
      | _ => rest
    match r with
    | (env₁, ret) =>
      match remaining with
      | [] => (env₁, ret)
      | _ => (env₁, .error "bquote takes one form")

mutual

/-- An expression is comma-free when no `,` or `,@` marker symbol occurs in
it (at any depth of vector or pair nesting). -/
def commaFree : Expression → Bool
  | .Atom (.Symbol s) => !(s == "," || s == ",@")
  | .Vector l => commaFreeList l
  | .Pair a b => commaFree a && commaFree b
  | _ => true

/-- All elements comma-free. -/
def commaFreeList : List Expression → Bool
  | [] => true
  | e :: es => commaFree e && commaFreeList es

end

mutual

/-- Every list nested in the expression has the kind given by `is_vector`
(`true`: vectors only, `false`: proper pair chains only). -/
def kindUniform : Bool → Expression → Bool
  | is_vector, .Vector l => is_vector && kindUniformList is_vector l
  | is_vector, .Pair a b =>
    !is_vector && kindUniform is_vector a && kindChainTail is_vector b
  | _, _ => true

/-- The tail of a kind-uniform pair chain: another pair, or the final
`Nil`. -/
def kindChainTail : Bool → Expression → Bool
  | is_vector, .Pair a b => kindUniform is_vector (.Pair a b)
  | _, .Atom .Nil => true
  | _, _ => false

/-- All elements `kindUniform`. -/
def kindUniformList : Bool → List Expression → Bool
  | _, [] => true
  | v, e :: es => kindUniform v e && kindUniformList v es

end

/-- The top-level form of `kindUniform`: the nesting kind is dictated by
the expression's own top-level kind (atoms and other leaves pass). -/
def kindOK : Expression → Bool
  | .Vector l => kindUniform true (.Vector l)
  | .Pair a b => kindUniform false (.Pair a b)
  | _ => true

/-- A left-to-right evaluation trace: `EvalsAll evalF env args env' vs`
says that evaluating the forms `args` in order from `env`, each succeeding,
yields the values `vs` and the final environment `env'`. -/
inductive EvalsAll (evalF : EvalFn) :
    Environment → List Expression → Environment → List Expression → Prop where
  | nil (env : Environment) : EvalsAll evalF env [] env []
  | cons {env env₁ env' : Environment} {a v : Expression}
      {rest vs : List Expression} :
      evalF env a = (env₁, .ok v) → EvalsAll evalF env₁ rest env' vs →
      EvalsAll evalF env (a :: rest) env' (v :: vs)

/-- Concrete fixture: an evaluator that treats every expression as
self-evaluating and has no environment effect. -/
def evalId : EvalFn := fun env x => (env, .ok x)

/-- Concrete fixture: no builtin registrations. -/
def noBuiltins : String → Option Expression := fun _ => none

/-- Concrete fixture: the freshly built default environment. -/
def env0 : Environment := build_default_environment noBuiltins

/-- Concrete fixture: a default environment in whose state a `run-bg` body
is already executing (`run_background` is set). -/
def envRunBg : Environment := { env0 with run_background := true }

/-- Concrete fixture: a default environment whose gensym counter has
reached `u32::MAX`. -/
def envGensymMax : Environment :=
  { env0 with state := { env0.state with gensym_count := u32_size - 1 } }

/-- Concrete fixture: a lexical (non-namespace) scope whose data map binds
the namespace-qualified name `a::b`. -/
def scopeQualified : Scope :=
  { data := fun k => if k = "a::b" then some (.Atom (.Int 1)) else none
    outer := none
    name := none }

/-- Concrete fixture: an environment whose current innermost scope is
`scopeQualified`, with nothing dynamically bound. -/
def envQualified : Environment :=
  { env0 with
      heap := env0.heap ++ [scopeQualified]
      current_scope := [1] }

/-- Concrete fixture: an environment already assembling a pipeline. -/
def envInPipe : Environment := { env0 with in_pipe := true }

/-- Concrete fixture: a `writef` that always succeeds without effect. -/
def writef0 : WritefFn := fun _ _ => .ok ()

/-!
## Theorems

One theorem per claim of the specification audit, in claim order, each
preceded by counterexamples or followed by witnesses where applicable.
-/

/-- C1 (amended): for every evaluator behaviour, prior environment and
argument sequence, `command` and `form` restore `form_type` and
`loose-symbols` restores `loose_symbols` to their values from immediately
before the form was entered, on every exit path; `run-bg`, by contrast,
does not save the prior value — on every exit path it resets
`run_background` to `false` (which equals the prior value only when that
value was `false`). -/
theorem c1_mode_flags_on_exit (evalF : EvalFn) (env : Environment)
    (args : List Expression) :
    (builtin_command evalF env args).1.form_type = env.form_type ∧
    (builtin_form evalF env args).1.form_type = env.form_type ∧
    (builtin_loose_symbols evalF env args).1.loose_symbols =
      env.loose_symbols ∧
    (builtin_run_bg evalF env args).1.run_background = false := by
  refine ⟨?_, ?_, ?_, ?_⟩
  · unfold builtin_command
    rcases evalSeq evalF { env with form_type := .ExternalOnly } args with
      ⟨env', r⟩
    rfl
  · unfold builtin_form
    rcases evalSeq evalF { env with form_type := .FormOnly } args with
      ⟨env', r⟩
    rfl
  · unfold builtin_loose_symbols
    rcases evalSeq evalF { env with loose_symbols := true } args with
      ⟨env', r⟩
    rfl
  · unfold builtin_run_bg
    rcases evalSeq evalF { env with run_background := true } args with
      ⟨env', r⟩
    rfl

/-- C1 counterexample: entered with `run_background = true` (as in a nested
`run-bg`), `run-bg` exits with `run_background = false`, not with the value
from immediately before entry, so the claimed restoration fails for
`run-bg`. -/
theorem c1_counterexample :
    envRunBg.run_background = true ∧
    (builtin_run_bg evalId envRunBg []).1.run_background ≠
      envRunBg.run_background := by
  exact ⟨rfl, by decide⟩

/-- C4 (confirmed): for `(dyn s v body)` — where the key form evaluates to
the symbol `s` and the value form to `v` without touching the environment —
after `builtin_dyn` exits, whether the body evaluation returned a value or
an error and whatever it did to the dynamic scope, the dynamic binding of
`s` is exactly what it was before the call (the prior value if one existed,
absent otherwise). -/
theorem c4_dyn_restore (evalF : EvalFn) (env : Environment)
    (key val body : Expression) (rest : List Expression) (s : String)
    (v : Expression)
    (hkey : evalF env key = (env, .ok (.Atom (.Symbol s))))
    (hval : evalF env val = (env, .ok v)) :
    ((builtin_dyn evalF env (key :: val :: body :: rest)).1).dynamic_scope s
      = env.dynamic_scope s := by
  unfold builtin_dyn proc_set_vars
  simp only [Bool.not_false, Bool.true_or, if_true, hkey, hval,
    proc_set_vars2, List.drop_succ_cons, List.drop_zero]

/-- Witness for C4 at a concrete input: restoring the (absent) binding of
`x` around a trivial body in the default environment. -/
theorem c4_dyn_restore_witness :
    ((builtin_dyn evalId env0
        [.Atom (.Symbol "x"), .Atom (.Int 5), .Atom .Nil]).1).dynamic_scope
      "x" = env0.dynamic_scope "x" :=
  c4_dyn_restore evalId env0 (.Atom (.Symbol "x")) (.Atom (.Int 5))
    (.Atom .Nil) [] "x" (.Atom (.Int 5)) rfl rfl

/-- C5 (confirmed): `get-error` evaluates its argument forms in order
exactly as the sequential evaluation loop does; when every form succeeds it
returns the last form's value (`Nil` for zero forms) with the same final
environment, and when a form errors — later forms staying unevaluated — it
returns, instead of the error, a two-element vector of the symbol `:error`
and the error's message as a string. -/
theorem c5_get_error (evalF : EvalFn) (env : Environment)
    (args : List Expression) :
    builtin_get_error evalF env args =
      (match evalSeq evalF env args with
       | (env', .ok v) => (env', .ok v)
       | (env', .error e) =>
         (env', .ok (Expression.with_list
           [.Atom (.Symbol ":error"), .Atom (.String e)]))) := by
  induction args generalizing env with
  | nil => simp [builtin_get_error, evalSeq]
  | cons a rest ih =>
    unfold builtin_get_error evalSeq
    rcases h : evalF env a with ⟨env₁, r⟩
    cases r with
    | error e => simp
    | ok v =>
      cases rest with
      | nil => simp
      | cons b bs => simpa using ih env₁

/-- Stepping `andLoop` over an argument that evaluates to a non-`Nil`
value: the loop continues with that value as the new accumulator. -/
theorem andLoop_cons_ok (evalF : EvalFn) {env env₁ : Environment}
    {a v : Expression} (last : Expression) (rest : List Expression)
    (h : evalF env a = (env₁, .ok v)) (hv : v ≠ .Atom .Nil) :
    andLoop evalF env last (a :: rest) = andLoop evalF env₁ v rest := by
  simp only [andLoop, h]

/-- Stepping `builtin_or` over an argument that evaluates to `Nil`: the
loop continues. -/
theorem or_cons_nil (evalF : EvalFn) {env env₁ : Environment}
    {a : Expression} (rest : List Expression)
    (h : evalF env a = (env₁, .ok (.Atom .Nil))) :
    builtin_or evalF env (a :: rest) = builtin_or evalF env₁ rest := by
  simp only [builtin_or, h]

/-- Stepping `builtin_or` over an argument that evaluates to a non-`Nil`
value: the loop returns it at once. -/
theorem or_cons_nonnil (evalF : EvalFn) {env env₁ : Environment}
    {a v : Expression} (rest : List Expression)
    (h : evalF env a = (env₁, .ok v)) (hv : v ≠ .Atom .Nil) :
    builtin_or evalF env (a :: rest) = (env₁, .ok v) := by
  simp only [builtin_or, h]

/-- When every argument evaluates successfully to a non-`Nil` value, the
`and` loop returns the last of those values (or the accumulator if there
were none). -/
theorem andLoop_all_nonnil (evalF : EvalFn) {env env' : Environment}
    {args vs : List Expression} (h : EvalsAll evalF env args env' vs) :
    (∀ v ∈ vs, v ≠ .Atom .Nil) → ∀ last,
      andLoop evalF env last args = (env', .ok (vs.getLastD last)) := by
  induction h with
  | nil _ => intro _ last; rfl
  | cons ha htail ih =>
    intro hnn last
    have hv := hnn _ (List.mem_cons_self _ _)
    rw [andLoop_cons_ok evalF last _ ha hv,
      ih (fun u hu => hnn u (List.mem_cons_of_mem _ hu)) _,
      List.getLastD_cons]

/-- After a prefix of successful non-`Nil` arguments, an argument that
evaluates to `Nil` makes the `and` loop return `Nil` immediately, whatever
the accumulator and the remaining argument forms. -/
theorem andLoop_shortcircuit (evalF : EvalFn) {env env₁ : Environment}
    {pre vs : List Expression} (htr : EvalsAll evalF env pre env₁ vs) :
    (∀ v ∈ vs, v ≠ .Atom .Nil) → ∀ last a rest env₂,
    evalF env₁ a = (env₂, .ok (.Atom .Nil)) →
    andLoop evalF env last (pre ++ a :: rest) = (env₂, .ok (.Atom .Nil)) := by
  induction htr with
  | nil _ =>
    intro _ last a rest env₂ hnil
    rw [List.nil_append]
    simp only [andLoop, hnil]
  | cons ha htail ih =>
    intro hnn last a rest env₂ hnil
    have hv := hnn _ (List.mem_cons_self _ _)
    rw [List.cons_append, andLoop_cons_ok evalF last _ ha hv]
    exact ih (fun u hu => hnn u (List.mem_cons_of_mem _ hu)) _ a rest env₂ hnil

/-- When every argument evaluates successfully to `Nil`, the `or` loop
falls off the end and returns `Nil`. -/
theorem or_all_nil (evalF : EvalFn) {env env' : Environment}
    {args vs : List Expression} (h : EvalsAll evalF env args env' vs) :
    (∀ v ∈ vs, v = .Atom .Nil) → builtin_or evalF env args =
      (env', .ok (.Atom .Nil)) := by
  induction h with
  | nil _ => intro _; rfl
  | cons ha htail ih =>
    intro hn
    have hv := hn _ (List.mem_cons_self _ _)
    subst hv
    rw [or_cons_nil evalF _ ha]
    exact ih (fun u hu => hn u (List.mem_cons_of_mem _ hu))

/-- After a prefix of successful `Nil` arguments, an argument that
evaluates to a non-`Nil` value makes `or` return that value immediately,
whatever the remaining argument forms. -/
theorem or_first_nonnil (evalF : EvalFn) {env env₁ : Environment}
    {pre vs : List Expression} (htr : EvalsAll evalF env pre env₁ vs) :
    (∀ u ∈ vs, u = .Atom .Nil) → ∀ a rest env₂ v,
    evalF env₁ a = (env₂, .ok v) → v ≠ .Atom .Nil →
    builtin_or evalF env (pre ++ a :: rest) = (env₂, .ok v) := by
  induction htr with
  | nil _ =>
    intro _ a rest env₂ v hok hv
    rw [List.nil_append]
    exact or_cons_nonnil evalF _ hok hv
  | cons ha htail ih =>
    intro hn a rest env₂ v hok hv
    have h0 := hn _ (List.mem_cons_self _ _)
    subst h0
    rw [List.cons_append, or_cons_nil evalF _ ha]
    exact ih (fun u hu => hn u (List.mem_cons_of_mem _ hu)) a rest env₂ v hok hv

/-- C6 (confirmed): `and` evaluates arguments left to right, returns `Nil`
the moment one evaluates to `Nil` (the result does not depend on the
remaining, unevaluated argument forms), otherwise returns the last
argument's value, and returns `True` for zero arguments.  `or` evaluates
left to right, returns the first non-`Nil` value without evaluating the
remaining forms, and returns `Nil` for zero arguments or when every
argument evaluates to `Nil`. -/
theorem c6_and_or (evalF : EvalFn) :
    (∀ env, builtin_and evalF env [] = (env, .ok (.Atom .True))) ∧
    (∀ env, builtin_or evalF env [] = (env, .ok (.Atom .Nil))) ∧
    (∀ env pre a rest env₁ vs env₂,
      EvalsAll evalF env pre env₁ vs → (∀ v ∈ vs, v ≠ .Atom .Nil) →
      evalF env₁ a = (env₂, .ok (.Atom .Nil)) →
      builtin_and evalF env (pre ++ a :: rest) = (env₂, .ok (.Atom .Nil))) ∧
    (∀ env args env' vs,
      EvalsAll evalF env args env' vs → (∀ v ∈ vs, v ≠ .Atom .Nil) →
      builtin_and evalF env args = (env', .ok (vs.getLastD (.Atom .True)))) ∧
    (∀ env pre a rest env₁ vs env₂ v,
      EvalsAll evalF env pre env₁ vs → (∀ u ∈ vs, u = .Atom .Nil) →
      evalF env₁ a = (env₂, .ok v) → v ≠ .Atom .Nil →
      builtin_or evalF env (pre ++ a :: rest) = (env₂, .ok v)) ∧
    (∀ env args env' vs,
      EvalsAll evalF env args env' vs → (∀ v ∈ vs, v = .Atom .Nil) →
      builtin_or evalF env args = (env', .ok (.Atom .Nil))) := by
  refine ⟨fun env => rfl, fun env => rfl, ?_, ?_, ?_, ?_⟩
  · intro env pre a rest env₁ vs env₂ htr hnn hnil
    rw [builtin_and]
    exact andLoop_shortcircuit evalF htr hnn _ a rest env₂ hnil
  · intro env args env' vs htr hnn
    rw [builtin_and]
    exact andLoop_all_nonnil evalF htr hnn _
  · intro env pre a rest env₁ vs env₂ v htr hn hok hv
    exact or_first_nonnil evalF htr hn a rest env₂ v hok hv
  · intro env args env' vs htr hn
    exact or_all_nil evalF htr hn

/-- Witness for C6 at concrete inputs: `and` short-circuits on a `Nil`
first argument, and `or` skips a `Nil` first argument and returns the
second, non-`Nil` one. -/
theorem c6_and_or_witness :
    builtin_and evalId env0 [.Atom .Nil, .Atom .True] =
      (env0, .ok (.Atom .Nil)) ∧
    builtin_or evalId env0 [.Atom .Nil, .Atom (.Int 7)] =
      (env0, .ok (.Atom (.Int 7))) := by
  constructor
  · exact (c6_and_or evalId).2.2.1 env0 [] (.Atom .Nil) [.Atom .True] env0 []
      env0 (EvalsAll.nil env0) (by simp) rfl
  · exact (c6_and_or evalId).2.2.2.2.1 env0 [.Atom .Nil] (.Atom (.Int 7)) []
      env0 [.Atom .Nil] env0 (.Atom (.Int 7))
      (EvalsAll.cons rfl (EvalsAll.nil env0)) (by simp) rfl (by simp)

/-- With enough fuel, decoding the digits of `n` gives back `n`, and every
digit is below 10. -/
theorem natDigitsF_spec :
    ∀ fuel n, n < fuel →
      undigits (natDigitsF fuel n) = n ∧ ∀ d ∈ natDigitsF fuel n, d < 10 := by
  intro fuel
  induction fuel with
  | zero => intro n h; omega
  | succ fuel ih =>
    intro n h
    rw [natDigitsF]
    split
    · refine ⟨by simp [undigits], ?_⟩
      intro d hd
      simp only [List.mem_singleton] at hd
      omega
    · have hrec := ih (n / 10) (by omega)
      constructor
      · simp only [undigits, hrec.1]
        omega
      · intro d hd
        simp only [List.mem_cons] at hd
        rcases hd with h1 | h2
        · subst h1; exact Nat.mod_lt _ (by omega)
        · exact hrec.2 d h2

/-- `Nat.digitChar` is injective on digits. -/
theorem digitChar_injOn (d e : Nat) (hd : d < 10) (he : e < 10)
    (h : Nat.digitChar d = Nat.digitChar e) : d = e := by
  interval_cases d <;> interval_cases e <;>
    first | rfl | exact absurd h (by decide)

/-- Mapping `Nat.digitChar` over digit lists is injective. -/
theorem map_digitChar_inj :
    ∀ (l₁ l₂ : List Nat), (∀ d ∈ l₁, d < 10) → (∀ d ∈ l₂, d < 10) →
      l₁.map Nat.digitChar = l₂.map Nat.digitChar → l₁ = l₂ := by
  intro l₁
  induction l₁ with
  | nil =>
    intro l₂ _ _ h
    cases l₂ with
    | nil => rfl
    | cons e es => simp at h
  | cons d ds ih =>
    intro l₂ h1 h2 h
    cases l₂ with
    | nil => simp at h
    | cons e es =>
      simp only [List.map_cons, List.cons.injEq] at h
      have hde := digitChar_injOn d e (h1 d (by simp)) (h2 e (by simp)) h.1
      have hes := ih es (fun u hu => h1 u (by simp [hu]))
        (fun u hu => h2 u (by simp [hu])) h.2
      rw [hde, hes]

/-- `natRepr` is injective: distinct numbers render as distinct strings. -/
theorem natRepr_inj {m n : Nat} (h : natRepr m = natRepr n) : m = n := by
  have hdata := congrArg String.data h
  simp only [natRepr] at hdata
  have hm := natDigitsF_spec (m + 1) m (by omega)
  have hn := natDigitsF_spec (n + 1) n (by omega)
  have hmap := map_digitChar_inj _ _
    (fun d hd => hm.2 d (List.mem_reverse.mp hd))
    (fun d hd => hn.2 d (List.mem_reverse.mp hd)) hdata
  have hdig := List.reverse_inj.mp hmap
  have := congrArg undigits hdig
  rwa [hm.1, hn.1] at this

/-- The gensym counter after `n + 1` calls is the starting counter plus
`n + 1`, modulo `2 ^ 32`. -/
theorem gensymIter_count (env : Environment) :
    ∀ n, (gensymIter env (n + 1)).state.gensym_count =
      (env.state.gensym_count + (n + 1)) % u32_size := by
  intro n
  induction n with
  | zero => rfl
  | succ k ih =>
    show (builtin_gensym (gensymIter env (k + 1)) []).1.state.gensym_count = _
    simp only [builtin_gensym, ih, Nat.mod_add_mod]
    congr 1

/-- The value returned by the `i + 1`-st `gensym` call (after `i` prior
calls) is the symbol `gs::<(c + i + 1) mod 2^32>` where `c` is the starting
counter. -/
theorem gensym_nth_value (env : Environment) :
    ∀ i, (builtin_gensym (gensymIter env i) []).2 =
      .ok (.Atom (.Symbol
        ("gs::" ++ natRepr ((env.state.gensym_count + i + 1) % u32_size)))) := by
  intro i
  cases i with
  | zero => rfl
  | succ k =>
    simp only [builtin_gensym, gensymIter_count env k, Nat.mod_add_mod]

/-- C10 (amended): a zero-argument `gensym` call bumps the environment's
gensym counter by one *modulo `2 ^ 32`* (the counter is a `u32` and wraps)
and returns the symbol `gs::<counter>` for the new counter value;
consequently two `gensym` calls on the same environment return distinct
symbols whenever they are fewer than `2 ^ 32` calls apart. -/
theorem c10_gensym (env : Environment) :
    (builtin_gensym env [] =
      ({ env with state := { env.state with
          gensym_count := (env.state.gensym_count + 1) % u32_size } },
       .ok (.Atom (.Symbol
         ("gs::" ++ natRepr ((env.state.gensym_count + 1) % u32_size)))))) ∧
    (∀ i j, i < j → j - i < u32_size →
      (builtin_gensym (gensymIter env i) []).2 ≠
        (builtin_gensym (gensymIter env j) []).2) := by
  constructor
  · rfl
  · intro i j hij hspan hcontra
    rw [gensym_nth_value env i, gensym_nth_value env j] at hcontra
    simp only [Except.ok.injEq, Expression.Atom.injEq, Atom.Symbol.injEq]
      at hcontra
    have hdata := congrArg String.data hcontra
    simp only [String.data_append] at hdata
    have hrepr : natRepr ((env.state.gensym_count + i + 1) % u32_size) =
        natRepr ((env.state.gensym_count + j + 1) % u32_size) := by
      have := List.append_cancel_left hdata
      exact String.ext this
    have hmod := natRepr_inj hrepr
    have hdvd : u32_size ∣ (env.state.gensym_count + j + 1) -
        (env.state.gensym_count + i + 1) :=
      (Nat.modEq_iff_dvd' (by omega)).mp hmod
    have : u32_size ≤ j - i := by
      have hpos : 0 < (env.state.gensym_count + j + 1) -
          (env.state.gensym_count + i + 1) := by omega
      have := Nat.le_of_dvd hpos hdvd
      omega
    omega

/-- C10 counterexample: with the counter at `u32::MAX`, `gensym` does not
increment the counter by one — the `u32` wraps to `0` — and the returned
symbol is `gs::0`, not `gs::<old counter + 1>`. -/
theorem c10_counterexample :
    envGensymMax.state.gensym_count = u32_size - 1 ∧
    (builtin_gensym envGensymMax []).1.state.gensym_count ≠
      envGensymMax.state.gensym_count + 1 ∧
    (builtin_gensym envGensymMax []).2 = .ok (.Atom (.Symbol "gs::0")) := by
  refine ⟨rfl, by decide, rfl⟩

/-- Witness for C10 at a concrete input: the first and second `gensym`
calls on the default environment return the distinct symbols `gs::1` and
`gs::2`. -/
theorem c10_gensym_witness :
    (builtin_gensym (gensymIter env0 0) []).2 ≠
      (builtin_gensym (gensymIter env0 1) []).2 :=
  (c10_gensym env0).2 0 1 (by decide) (by decide)

/-- A `getElem?` that hits is within bounds. -/
theorem getElem?_lt_length {α : Type} {l : List α} {i : Nat} {a : α}
    (h : l[i]? = some a) : i < l.length := by
  by_contra hnot
  rw [List.getElem?_eq_none (by omega)] at h
  exact absurd h (by simp)

/-- The namespace-registry invariant only mentions `namespaces`, `heap` and
`root_scope`, so changing the scope stack preserves it. -/
theorem ns_registry_inv_current_scope {env : Environment}
    (h : ns_registry_inv env) (cs : List Nat) :
    ns_registry_inv { env with current_scope := cs } := h

/-- On the success path, `ns_create_core` appends the (twice-`*ns*`-seeded)
namespace scope to the heap, registers it, and pushes it on the scope
stack. -/
theorem ns_create_core_eq {env₁ : Environment} {key : String}
    (hc : ns_contains env₁.namespaces key = false) :
    ns_create_core env₁ key =
      ({ env₁ with
          heap := (env₁.heap ++
            [({ data := fun k =>
                  if k = "*ns*" then some (.Atom (.String key)) else none
                outer := some env₁.root_scope
                name := some key } : Scope)]).set env₁.heap.length
            ({ data := fun k =>
                 if k = "*ns*" then some (.Atom (.String key))
                 else if k = "*ns*" then some (.Atom (.String key)) else none
               outer := some env₁.root_scope
               name := some key } : Scope)
          namespaces := (key, env₁.heap.length) :: env₁.namespaces
          current_scope := env₁.current_scope ++ [env₁.heap.length] },
       .ok (.Atom .Nil)) := by
  unfold ns_create_core build_new_namespace
  simp only [hc, Bool.false_eq_true, if_false, List.getElem?_concat_length]

/-- `ns_create_core` preserves the namespace-registry invariant. -/
theorem ns_create_core_inv {env₁ : Environment} (key : String)
    (hinv : ns_registry_inv env₁) :
    ns_registry_inv (ns_create_core env₁ key).1 := by
  cases hc : ns_contains env₁.namespaces key with
  | true =>
    have : ns_create_core env₁ key = (env₁, .error s!"Namespace {key} already exists!") := by
      unfold ns_create_core build_new_namespace
      simp only [hc, if_true]
    rw [this]
    exact hinv
  | false =>
    have hkey : key ≠ "root" := by
      obtain ⟨i₀, hi₀⟩ := hinv.1
      intro hkr
      subst hkr
      have : ns_contains env₁.namespaces "root" = true := by
        unfold ns_contains
        rw [List.any_eq_true]
        exact ⟨("root", i₀), hi₀, by simp⟩
      rw [this] at hc
      exact absurd hc (by simp)
    rw [ns_create_core_eq hc]
    constructor
    · obtain ⟨i₀, hi₀⟩ := hinv.1
      exact ⟨i₀, List.mem_cons_of_mem _ hi₀⟩
    · intro k i hmem
      rcases List.mem_cons.mp hmem with hnew | hold
      · have hk : k = key := congrArg Prod.fst hnew
        have hi : i = env₁.heap.length := congrArg Prod.snd hnew
        subst hk
        subst hi
        refine ⟨_, List.getElem?_set_self (by simp), rfl, ?_, fun _ => rfl⟩
        intro hroot
        exact absurd hroot hkey
      · obtain ⟨s, hs, hname, hr1, hr2⟩ := hinv.2 k i hold
        have hlt : i < env₁.heap.length := getElem?_lt_length hs
        refine ⟨s, ?_, hname, hr1, hr2⟩
        rw [List.getElem?_set_ne (by omega), List.getElem?_append_left hlt]
        exact hs

/-- `ns_enter_core` preserves the namespace-registry invariant (it only
pushes on the scope stack or errors). -/
theorem ns_enter_core_inv {env₁ : Environment} (key : String)
    (hinv : ns_registry_inv env₁) :
    ns_registry_inv (ns_enter_core env₁ key).1 := by
  unfold ns_enter_core
  cases get_namespace env₁ key with
  | some id => exact hinv
  | none => exact hinv

/-- Unfolding `builtin_ns_create` at a single argument once the
innermost-scope check has passed. -/
theorem builtin_ns_create_cons (evalF : EvalFn) (env : Environment)
    (keyExp : Expression) {sc : Scope}
    (hsc : current_scope_ref env = some sc) (hname : ¬ sc.name = none) :
    builtin_ns_create evalF env [keyExp] =
      match evalF env keyExp with
      | (env₁, .error e) => (env₁, .error e)
      | (env₁, .ok (.Atom (.Symbol sym))) => ns_create_core env₁ sym
      | (env₁, .ok (.Atom (.String s))) => ns_create_core env₁ s
      | (env₁, .ok _) =>
        (env₁, .error "ns-create: namespace must be a symbol or string") := by
  unfold builtin_ns_create
  rw [hsc]
  simp only [hname, if_false]

/-- Unfolding `builtin_ns_enter` at a single argument once the
innermost-scope check has passed. -/
theorem builtin_ns_enter_cons (evalF : EvalFn) (env : Environment)
    (keyExp : Expression) {sc : Scope}
    (hsc : current_scope_ref env = some sc) (hname : ¬ sc.name = none) :
    builtin_ns_enter evalF env [keyExp] =
      match evalF env keyExp with
      | (env₁, .error e) => (env₁, .error e)
      | (env₁, .ok (.Atom (.Symbol sym))) => ns_enter_core env₁ sym
      | (env₁, .ok (.Atom (.String s))) => ns_enter_core env₁ s
      | (env₁, .ok _) =>
        (env₁, .error "ns-enter: namespace must be a symbol or string") := by
  unfold builtin_ns_enter
  rw [hsc]
  simp only [hname, if_false]

/-- C3 counterexample: the claimed invariant — every registry entry's scope
has the root scope as its parent — fails already for the registry produced
by environment construction: the `"root"` entry is the root scope itself,
whose `outer` is `None`, not the root scope. -/
theorem c3_counterexample :
    ¬ (∀ p ∈ env0.namespaces, ∃ s, env0.heap[p.2]? = some s ∧
        s.name = some p.1 ∧ s.outer = some env0.root_scope) := by
  intro h
  have hmem : ("root", 0) ∈ env0.namespaces := by
    simp [env0, build_default_environment]
  obtain ⟨s, hs, _, houter⟩ := h ("root", 0) hmem
  have : s = Scope.default noBuiltins := by
    have : env0.heap[(0 : Nat)]? = some (Scope.default noBuiltins) := rfl
    rw [this] at hs
    exact (Option.some.injEq _ _ ▸ hs).symm
  subst this
  exact absurd houter (by simp [Scope.default])

/-- C3 (amended): in the registry built by environment construction, and
preserved by `ns-create` and `ns-enter` (given that the evaluation of their
name argument preserves it), every entry `(k, s)` has `s.name = Some k`;
the entry `"root"` is the root scope itself, whose parent is `None`, and
every *other* entry's parent is the root scope; the key `"root"` is always
present. -/
theorem c3_ns_registry (builtins : String → Option Expression)
    (evalF : EvalFn)
    (hpres : ∀ e x, ns_registry_inv e → ns_registry_inv (evalF e x).1) :
    ns_registry_inv (build_default_environment builtins) ∧
    (∀ env args, ns_registry_inv env →
      ns_registry_inv (builtin_ns_create evalF env args).1 ∧
      ns_registry_inv (builtin_ns_enter evalF env args).1) := by
  constructor
  · constructor
    · exact ⟨0, by simp [build_default_environment]⟩
    · intro k i hmem
      simp only [build_default_environment, List.mem_singleton,
        Prod.mk.injEq] at hmem
      obtain ⟨hk, hi⟩ := hmem
      subst hk
      subst hi
      exact ⟨Scope.default builtins, rfl, rfl, fun _ => ⟨rfl, rfl⟩,
        fun hne => absurd rfl hne⟩
  · intro env args hinv
    constructor
    · rcases hsc : current_scope_ref env with _ | sc
      · unfold builtin_ns_create
        rw [hsc]
        exact hinv
      · by_cases hname : sc.name = none
        · unfold builtin_ns_create
          rw [hsc]
          simp only [hname, if_true]
          exact hinv
        · cases args with
          | nil =>
            unfold builtin_ns_create
            rw [hsc]
            simp only [hname, if_false]
            exact hinv
          | cons keyExp rest =>
            cases rest with
            | cons b bs =>
              unfold builtin_ns_create
              rw [hsc]
              simp only [hname, if_false]
              exact hinv
            | nil =>
              rw [builtin_ns_create_cons evalF env keyExp hsc hname]
              rcases hev : evalF env keyExp with ⟨env₁, r⟩
              have hinv₁ : ns_registry_inv env₁ := by
                have := hpres env keyExp hinv
                rwa [hev] at this
              cases r with
              | error e => exact hinv₁
              | ok v =>
                cases v with
                | Atom a =>
                  cases a with
                  | Symbol sym => exact ns_create_core_inv sym hinv₁
                  | String s => exact ns_create_core_inv s hinv₁
                  | Nil => exact hinv₁
                  | True => exact hinv₁
                  | Float => exact hinv₁
                  | Int _ => exact hinv₁
                  | StringBuf _ => exact hinv₁
                  | Lambda _ => exact hinv₁
                  | Macro _ => exact hinv₁
                | Vector _ => exact hinv₁
                | Pair _ _ => exact hinv₁
                | Func _ => exact hinv₁
                | Process _ => exact hinv₁
                | File _ => exact hinv₁
    · rcases hsc : current_scope_ref env with _ | sc
      · unfold builtin_ns_enter
        rw [hsc]
        exact hinv
      · by_cases hname : sc.name = none
        · unfold builtin_ns_enter
          rw [hsc]
          simp only [hname, if_true]
          exact hinv
        · cases args with
          | nil =>
            unfold builtin_ns_enter
            rw [hsc]
            simp only [hname, if_false]
            exact hinv
          | cons keyExp rest =>
            cases rest with
            | cons b bs =>
              unfold builtin_ns_enter
              rw [hsc]
              simp only [hname, if_false]
              exact hinv
            | nil =>
              rw [builtin_ns_enter_cons evalF env keyExp hsc hname]
              rcases hev : evalF env keyExp with ⟨env₁, r⟩
              have hinv₁ : ns_registry_inv env₁ := by
                have := hpres env keyExp hinv
                rwa [hev] at this
              cases r with
              | error e => exact hinv₁
              | ok v =>
                cases v with
                | Atom a =>
                  cases a with
                  | Symbol sym => exact ns_enter_core_inv sym hinv₁
                  | String s => exact ns_enter_core_inv s hinv₁
                  | Nil => exact hinv₁
                  | True => exact hinv₁
                  | Float => exact hinv₁
                  | Int _ => exact hinv₁
                  | StringBuf _ => exact hinv₁
                  | Lambda _ => exact hinv₁
                  | Macro _ => exact hinv₁
                | Vector _ => exact hinv₁
                | Pair _ _ => exact hinv₁
                | Func _ => exact hinv₁
                | Process _ => exact hinv₁
                | File _ => exact hinv₁

/-- Witness for C3 at concrete inputs: the amended invariant holds for the
default environment and survives creating the namespace `"user"` under the
trivial, invariant-preserving evaluator. -/
theorem c3_ns_registry_witness :
    ns_registry_inv (builtin_ns_create evalId env0
      [.Atom (.String "user")]).1 :=
  ((c3_ns_registry noBuiltins evalId (fun _ _ h => h)).2 env0
    [.Atom (.String "user")]
    (c3_ns_registry noBuiltins evalId (fun _ _ h => h)).1).1

/-- C7 (confirmed): `pipe` errors out immediately — environment untouched —
when a pipeline is already being assembled (`in_pipe` set); within the
stage loop, a stage at 1-based index greater than one that evaluates to an
open read file makes the loop stop with the read-file-position error, while
a read file in first position is accepted; and an error recorded by the
loop becomes the error result of `pipe` itself.  Hence every accepted
pipeline contains at most one read-file stage and it is first. -/
theorem c7_pipe (evalF : EvalFn) (writefF : WritefFn) :
    (∀ env args, env.in_pipe = true →
      builtin_pipe evalF writefF env args =
        (env, .error "pipe within pipe, not valid")) ∧
    (∀ old env out i p rest env₁ h, 1 < i →
      evalF (pipePrep old env out rest) p = (env₁, .ok (.File (.Read h))) →
      (pipeLoop evalF writefF old env out i p rest).2.2 =
        some "Not a valid place for a read file (must be at start of pipe).") ∧
    (∀ old env out p env₁ h,
      evalF (pipePrep old env out []) p = (env₁, .ok (.File (.Read h))) →
      pipeLoop evalF writefF old env out 1 p [] =
        (env₁, .File (.Read h), none)) ∧
    (∀ env p rest e, env.in_pipe = false →
      (pipeLoop evalF writefF env.state.stdout_status
        { env with
            in_pipe := true
            state := { env.state with stdout_status := some .Pipe } }
        (.Atom .Nil) 1 p rest).2.2 = some e →
      (builtin_pipe evalF writefF env (p :: rest)).2 = .error e) := by
  refine ⟨?_, ?_, ?_, ?_⟩
  · intro env args h
    unfold builtin_pipe
    simp [h]
  · intro old env out i p rest env₁ h hi hev
    rw [pipeLoop, hev]
    simp only [if_pos hi]
  · intro old env out p env₁ h hev
    rw [pipeLoop, hev]
    simp
  · intro env p rest e h hloop
    unfold builtin_pipe
    simp only [h, Bool.false_eq_true, if_false]
    rcases hl : pipeLoop evalF writefF env.state.stdout_status
        { env with
            in_pipe := true
            state := { env.state with stdout_status := some .Pipe } }
        (.Atom .Nil) 1 p rest with ⟨env₂, out, err⟩
    rw [hl] at hloop
    simp only at hloop
    rw [hloop]

/-- Witness for C7 at concrete inputs: a nested `pipe` is rejected, and a
read file evaluated as the second stage of the loop records the position
error. -/
theorem c7_pipe_witness :
    builtin_pipe evalId writef0 envInPipe [] =
      (envInPipe, .error "pipe within pipe, not valid") ∧
    (pipeLoop evalId writef0 none env0 (.Atom .Nil) 2
        (.File (.Read 0)) []).2.2 =
      some "Not a valid place for a read file (must be at start of pipe)." := by
  constructor
  · exact (c7_pipe evalId writef0).1 envInPipe [] rfl
  · exact (c7_pipe evalId writef0).2.1 none env0 (.Atom .Nil) 2
      (.File (.Read 0)) [] (pipePrep none env0 (.Atom .Nil) []) 0
      (by decide) rfl

/-- C8 counterexample: in an environment whose innermost lexical scope's
map contains the key `a::b` (with no dynamic binding of it), `set` on
`a::b` returns an error and modifies nothing, although the claim — which
promises a write to the nearest enclosing lexical scope whose map contains
the symbol — requires the write to succeed. -/
theorem c8_counterexample :
    (∃ sc, envQualified.current_scope.getLast? = some (1 : Nat) ∧
      envQualified.heap[(1 : Nat)]? = some sc ∧ (sc.data "a::b").isSome) ∧
    envQualified.dynamic_scope "a::b" = none ∧
    builtin_set evalId envQualified
        [.Atom (.Symbol "a::b"), .Atom (.Int 2)] =
      (envQualified,
       .error "set's first form must evaluate to an existing symbol") := by
  refine ⟨⟨scopeQualified, rfl, rfl, rfl⟩, rfl, rfl⟩

/-- C8 (amended): for `(set s v)` — the key form evaluating to the symbol
`s` and the value form to `v` — `set` writes `v` over an existing dynamic
binding of `s` first; otherwise, *provided `s` does not contain `::`*, over
the binding in the nearest enclosing lexical scope whose map contains `s`
(the scope found by `get_symbols_scope`); if neither yields a binding —
in particular for every `::`-qualified name that is not dynamically bound —
`set` returns an error and no scope is modified. -/
theorem c8_set (evalF : EvalFn) (env envK envV : Environment)
    (key val : Expression) (s : String) (v : Expression)
    (hkey : evalF env key = (envK, .ok (.Atom (.Symbol s))))
    (hval : evalF envK val = (envV, .ok v)) :
    ((envV.dynamic_scope s).isSome →
      builtin_set evalF env [key, val] =
        ({ envV with dynamic_scope := fun k =>
             if k = s then some v else envV.dynamic_scope k }, .ok v)) ∧
    (envV.dynamic_scope s = none →
      ∀ id sc, get_symbols_scope envV s = some id →
        envV.heap[id]? = some sc →
        builtin_set evalF env [key, val] =
          ({ envV with
              heap := envV.heap.set id
                ({ sc with
                    data := fun k =>
                      if k = s then some v else sc.data k }) }, .ok v)) ∧
    (envV.dynamic_scope s = none → get_symbols_scope envV s = none →
      builtin_set evalF env [key, val] =
        (envV, .error "set's first form must evaluate to an existing symbol")) := by
  refine ⟨?_, ?_, ?_⟩
  · intro hdyn
    unfold builtin_set proc_set_vars
    simp [hkey, hval, proc_set_vars2, hdyn]
  · intro hdyn id sc hscope hheap
    unfold builtin_set proc_set_vars
    simp [hkey, hval, proc_set_vars2, hdyn, hscope, hheap]
  · intro hdyn hscope
    unfold builtin_set proc_set_vars
    simp [hkey, hval, proc_set_vars2, hdyn, hscope]

/-- Witness for C8 at a concrete input: overwriting the root binding of
`*ns*` in the default environment goes to the root scope's map. -/
theorem c8_set_witness :
    builtin_set evalId env0 [.Atom (.Symbol "*ns*"), .Atom (.Int 3)] =
      ({ env0 with
          heap := env0.heap.set 0
            ({ Scope.default noBuiltins with
                data := fun k =>
                  if k = "*ns*" then some (.Atom (.Int 3))
                  else (Scope.default noBuiltins).data k }) },
       .ok (.Atom (.Int 3))) :=
  (c8_set evalId env0 env0 env0 (.Atom (.Symbol "*ns*")) (.Atom (.Int 3))
    "*ns*" (.Atom (.Int 3)) rfl rfl).2.1 rfl 0 (Scope.default noBuiltins)
    rfl rfl

/-- C9 (confirmed): for every namespace-qualified name (containing `::`)
that is not bound in the dynamic scope, `set` always returns an error and
modifies nothing — whatever the namespaces and scopes contain — because
`get_symbols_scope` deliberately never resolves keys containing `::`; so
another namespace's bindings can never be mutated through `set`. -/
theorem c9_set_qualified (evalF : EvalFn) (env envK envV : Environment)
    (key val : Expression) (s : String) (v : Expression)
    (hkey : evalF env key = (envK, .ok (.Atom (.Symbol s))))
    (hval : evalF envK val = (envV, .ok v))
    (hq : contains_colons s = true)
    (hdyn : envV.dynamic_scope s = none) :
    builtin_set evalF env [key, val] =
      (envV, .error "set's first form must evaluate to an existing symbol") := by
  have hscope : get_symbols_scope envV s = none := by
    unfold get_symbols_scope
    simp [hq]
  unfold builtin_set proc_set_vars
  simp [hkey, hval, proc_set_vars2, hdyn, hscope]

/-- Witness for C9 at a concrete input: `set` on `a::b` errors although the
innermost lexical scope's map holds `a::b`. -/
theorem c9_set_qualified_witness :
    builtin_set evalId envQualified
        [.Atom (.Symbol "a::b"), .Atom (.Int 4)] =
      (envQualified,
       .error "set's first form must evaluate to an existing symbol") :=
  c9_set_qualified evalId envQualified envQualified envQualified
    (.Atom (.Symbol "a::b")) (.Atom (.Int 4)) "a::b" (.Atom (.Int 4))
    rfl rfl (by decide) rfl

/-- For a comma-free, kind-uniform proper pair chain, the element list is
itself comma-free and kind-uniform, and `cons_from_vec` rebuilds the chain
exactly. -/
theorem chain_spec : ∀ (a b : Expression),
    kindUniform false (.Pair a b) = true → commaFree (.Pair a b) = true →
    commaFreeList (pairToList (.Pair a b)) = true ∧
    kindUniformList false (pairToList (.Pair a b)) = true ∧
    cons_from_vec (pairToList (.Pair a b)) = .Pair a b
  | a, .Pair a' b' => by
    intro hku hcf
    simp only [kindUniform, kindChainTail, Bool.not_false, Bool.true_and,
      Bool.and_eq_true] at hku
    simp only [commaFree, Bool.and_eq_true] at hcf
    have hcf' : commaFree (.Pair a' b') = true := by
      simp only [commaFree, Bool.and_eq_true]
      exact ⟨hcf.2.1, hcf.2.2⟩
    have hku' : kindUniform false (.Pair a' b') = true := by
      simp only [kindUniform, Bool.not_false, Bool.true_and,
        Bool.and_eq_true]
      exact hku.2
    obtain ⟨hrest1, hrest2, hrest3⟩ := chain_spec a' b' hku' hcf'
    refine ⟨?_, ?_, ?_⟩
    · show commaFreeList (a :: pairToList (.Pair a' b')) = true
      simp only [pairToList, commaFreeList, Bool.and_eq_true] at hrest1 ⊢
      exact ⟨hcf.1, hrest1⟩
    · show kindUniformList false (a :: pairToList (.Pair a' b')) = true
      simp only [pairToList, kindUniformList, Bool.and_eq_true] at hrest2 ⊢
      exact ⟨hku.1, hrest2⟩
    · show Expression.Pair a (cons_from_vec (pairToList (.Pair a' b'))) =
        .Pair a (.Pair a' b')
      rw [hrest3]
  | a, .Atom .Nil => by
    intro hku hcf
    simp only [kindUniform, Bool.not_false, Bool.true_and, Bool.and_true,
      Bool.and_eq_true] at hku
    simp only [commaFree, Bool.and_eq_true, Bool.and_true] at hcf
    refine ⟨?_, ?_, rfl⟩
    · show commaFreeList [a] = true
      simp only [commaFreeList, Bool.and_true, Bool.and_eq_true]
      exact hcf
    · show kindUniformList false [a] = true
      simp only [kindUniformList, Bool.and_true, Bool.and_eq_true]
      exact hku.1
  | _, .Atom .True => by intro hku _; simp [kindUniform, kindChainTail] at hku
  | _, .Atom .Float => by intro hku _; simp [kindUniform, kindChainTail] at hku
  | _, .Atom (.Int _) => by intro hku _; simp [kindUniform, kindChainTail] at hku
  | _, .Atom (.Symbol _) => by intro hku _; simp [kindUniform, kindChainTail] at hku
  | _, .Atom (.String _) => by intro hku _; simp [kindUniform, kindChainTail] at hku
  | _, .Atom (.StringBuf _) => by intro hku _; simp [kindUniform, kindChainTail] at hku
  | _, .Atom (.Lambda _) => by intro hku _; simp [kindUniform, kindChainTail] at hku
  | _, .Atom (.Macro _) => by intro hku _; simp [kindUniform, kindChainTail] at hku
  | _, .Vector _ => by intro hku _; simp [kindUniform, kindChainTail] at hku
  | _, .Func _ => by intro hku _; simp [kindUniform, kindChainTail] at hku
  | _, .Process _ => by intro hku _; simp [kindUniform, kindChainTail] at hku
  | _, .File _ => by intro hku _; simp [kindUniform, kindChainTail] at hku

/-- The flag logic of one `rcLoop` iteration for a rewritten element that
is not a marker symbol, when both flags are clear and the remainder maps to
itself: the element is consed onto the remainder. -/
theorem rcLoop_cons_step (evalF : EvalFn) {env : Environment}
    {exp : Expression} {is_vector : Bool} {rest : List Expression}
    (hc : isCommaSym exp = false) (ha : isAmpSym exp = false)
    (hrest : rcLoop evalF env is_vector false false rest = (env, .ok rest)) :
    (if isCommaSym exp = true then rcLoop evalF env is_vector true false rest
     else if isAmpSym exp = true then
       rcLoop evalF env is_vector false true rest
     else
       match rcFlagStep evalF env exp false false with
       | (env₂, .error err) => (env₂, .error err)
       | (env₂, .ok (pieces, c, a)) =>
         match rcLoop evalF env₂ is_vector c a rest with
         | (env₃, .ok outRest) => (env₃, .ok (pieces ++ outRest))
         | (env₃, .error err) => (env₃, .error err)) =
      (env, .ok (exp :: rest)) := by
  rw [hc, ha]
  simp only [Bool.false_eq_true, if_false, rcFlagStep]
  rw [hrest]
  simp

/-- `replace_commas`'s loop maps a comma-free, kind-uniform element list to
itself, with no effect on the environment. -/
theorem rcLoop_id (evalF : EvalFn) :
    ∀ (n : Nat) (l : List Expression), sizeOf l ≤ n → ∀ env is_vector,
      commaFreeList l = true → kindUniformList is_vector l = true →
      rcLoop evalF env is_vector false false l = (env, .ok l) := by
  intro n
  induction n with
  | zero =>
    intro l hl
    exfalso
    cases l with
    | nil => simp at hl
    | cons e rest => simp at hl
  | succ n ih =>
    intro l hl env is_vector hcf hku
    cases l with
    | nil => simp only [rcLoop]
    | cons e rest =>
      simp only [List.cons.sizeOf_spec] at hl
      have hpos := Expression.sizeOf_pos e
      have hlpos : 1 ≤ sizeOf rest := by
        cases rest with
        | nil => simp
        | cons h t => simp only [List.cons.sizeOf_spec]; omega
      have hrest_n : sizeOf rest ≤ n := by omega
      simp only [commaFreeList, Bool.and_eq_true] at hcf
      simp only [kindUniformList, Bool.and_eq_true] at hku
      obtain ⟨hcfe, hcfrest⟩ := hcf
      obtain ⟨hkue, hkurest⟩ := hku
      cases e with
      | Vector l' =>
        simp only [kindUniform, Bool.and_eq_true] at hkue
        obtain ⟨hv, hkul'⟩ := hkue
        subst hv
        simp only [commaFree] at hcfe
        have hsz : sizeOf l' ≤ n := by
          simp only [Expression.Vector.sizeOf_spec] at hpos hl
          omega
        rw [rcLoop]
        rw [ih l' hsz env true hcfe hkul']
        exact rcLoop_cons_step evalF rfl rfl
          (ih rest hrest_n env true hcfrest hkurest)
      | Pair a b =>
        have hv : is_vector = false := by
          cases is_vector
          · rfl
          · simp [kindUniform] at hkue
        subst hv
        obtain ⟨hl1, hl2, hl3⟩ := chain_spec a b hkue hcfe
        have hsz : sizeOf (pairToList (.Pair a b)) ≤ n := by
          have := pairToList_sizeOf_le (.Pair a b)
          omega
        rw [rcLoop]
        rw [ih (pairToList (.Pair a b)) hsz env false hl1 hl2]
        simp only [Bool.false_eq_true, if_false]
        rw [hl3]
        exact rcLoop_cons_step evalF rfl rfl
          (ih rest hrest_n env false hcfrest hkurest)
      | Atom a =>
        cases a with
        | Symbol s =>
          simp only [commaFree, Bool.not_eq_true', Bool.or_eq_false_iff]
            at hcfe
          simp only [rcLoop]
          exact rcLoop_cons_step evalF
            (by simp only [isCommaSym]; exact hcfe.1)
            (by simp only [isAmpSym]; exact hcfe.2)
            (ih rest hrest_n env is_vector hcfrest hkurest)
        | Nil =>
          simp only [rcLoop]
          exact rcLoop_cons_step evalF rfl rfl
            (ih rest hrest_n env is_vector hcfrest hkurest)
        | True =>
          simp only [rcLoop]
          exact rcLoop_cons_step evalF rfl rfl
            (ih rest hrest_n env is_vector hcfrest hkurest)
        | Float =>
          simp only [rcLoop]
          exact rcLoop_cons_step evalF rfl rfl
            (ih rest hrest_n env is_vector hcfrest hkurest)
        | Int _ =>
          simp only [rcLoop]
          exact rcLoop_cons_step evalF rfl rfl
            (ih rest hrest_n env is_vector hcfrest hkurest)
        | String _ =>
          simp only [rcLoop]
          exact rcLoop_cons_step evalF rfl rfl
            (ih rest hrest_n env is_vector hcfrest hkurest)
        | StringBuf _ =>
          simp only [rcLoop]
          exact rcLoop_cons_step evalF rfl rfl
            (ih rest hrest_n env is_vector hcfrest hkurest)
        | Lambda _ =>
          simp only [rcLoop]
          exact rcLoop_cons_step evalF rfl rfl
            (ih rest hrest_n env is_vector hcfrest hkurest)
        | Macro _ =>
          simp only [rcLoop]
          exact rcLoop_cons_step evalF rfl rfl
            (ih rest hrest_n env is_vector hcfrest hkurest)
      | Func _ =>
        simp only [rcLoop]
        exact rcLoop_cons_step evalF rfl rfl
          (ih rest hrest_n env is_vector hcfrest hkurest)
      | Process _ =>
        simp only [rcLoop]
        exact rcLoop_cons_step evalF rfl rfl
          (ih rest hrest_n env is_vector hcfrest hkurest)
      | File _ =>
        simp only [rcLoop]
        exact rcLoop_cons_step evalF rfl rfl
          (ih rest hrest_n env is_vector hcfrest hkurest)

/-- C2 counterexample: the comma-free pair chain `( #(1) )` — a chain whose
single element is a vector — is rewritten by `bquote` into a chain whose
element is a *pair chain*: `replace_commas` recurses into nested lists with
the outer `is_vector` flag, so the nested vector does not keep its kind and
the result is not structurally equal to the input. -/
theorem c2_counterexample :
    commaFree (.Pair (.Vector [.Atom (.Int 1)]) (.Atom .Nil)) = true ∧
    builtin_bquote evalId env0
        [.Pair (.Vector [.Atom (.Int 1)]) (.Atom .Nil)] =
      (env0,
       .ok (.Pair (.Pair (.Atom (.Int 1)) (.Atom .Nil)) (.Atom .Nil))) ∧
    Expression.Pair (.Pair (.Atom (.Int 1)) (.Atom .Nil)) (.Atom .Nil) ≠
      .Pair (.Vector [.Atom (.Int 1)]) (.Atom .Nil) := by
  refine ⟨?_, ?_, by simp⟩
  · simp [commaFree, commaFreeList]
  · simp [builtin_bquote, replace_commas, rcLoop, rcFlagStep, isCommaSym,
      isAmpSym, pairToList, cons_from_vec, Expression.with_list]

/-- C2 (amended): for every comma-free expression `x` whose nested lists
all have the same kind as `x`'s own top level (all vectors under a vector,
all proper pair chains under a pair chain; atoms and other leaves are
unconstrained), `(bquote x)` returns `x` structurally unchanged, with no
effect on the environment.  (Without the kind-uniformity condition, nested
lists are rewritten to the top level's kind, as the counterexample
shows.) -/
theorem c2_bquote_comma_free (evalF : EvalFn) (env : Environment)
    (x : Expression) (hcf : commaFree x = true) (hku : kindOK x = true) :
    builtin_bquote evalF env [x] = (env, .ok x) := by
  cases x with
  | Atom a =>
    cases a with
    | Symbol s =>
      have hs : ¬ s = "," := by
        simp only [commaFree, Bool.not_eq_true', Bool.or_eq_false_iff]
          at hcf
        simpa using hcf.1
      simp only [builtin_bquote, hs, if_false]
    | Nil => rfl
    | True => rfl
    | Float => rfl
    | Int _ => rfl
    | String _ => rfl
    | StringBuf _ => rfl
    | Lambda _ => rfl
    | Macro _ => rfl
  | Vector l =>
    simp only [commaFree] at hcf
    simp only [kindOK, kindUniform, Bool.true_and] at hku
    simp only [builtin_bquote, replace_commas]
    rw [rcLoop_id evalF (sizeOf l) l (Nat.le_refl _) env true hcf hku]
    rfl
  | Pair a b =>
    simp only [kindOK] at hku
    obtain ⟨h1, h2, h3⟩ := chain_spec a b hku hcf
    simp only [builtin_bquote, replace_commas]
    rw [rcLoop_id evalF (sizeOf (pairToList (.Pair a b)))
      (pairToList (.Pair a b)) (Nat.le_refl _) env false h1 h2]
    simp only [Bool.false_eq_true, if_false, h3]
  | Func _ => rfl
  | Process _ => rfl
  | File _ => rfl

/-- Witness for C2 at a concrete input: `bquote` of the comma-free,
kind-uniform chain `(1)` returns it unchanged. -/
theorem c2_bquote_comma_free_witness :
    builtin_bquote evalId env0 [.Pair (.Atom (.Int 1)) (.Atom .Nil)] =
      (env0, .ok (.Pair (.Atom (.Int 1)) (.Atom .Nil))) :=
  c2_bquote_comma_free evalId env0 (.Pair (.Atom (.Int 1)) (.Atom .Nil))
    (by simp [commaFree]) (by simp [kindOK, kindUniform, kindChainTail])

end Slsh
